import Mathlib

/-
Verification of the AI-readiness scoring service (app.py, cip_engine_readiness.py).

Shallow embedding conventions:
- JSON numbers are modelled as exact rationals; the answers dict is an
  association list from question-number strings to rationals.
- Python round is round-half-to-even, Python int() truncates toward zero;
  both are embedded below as pyround and pytrunc on exact rationals.
- Database tables are modelled as lists of rows; SQL upserts become pure
  functions on those lists; the sequence of SQL statements a routine issues
  is modelled as a trace of DbOp values.
-/

namespace Tool4

/-- Embedding of Python round on exact rationals: round half to even. -/
def pyround (q : ℚ) : ℤ :=
  if q - ⌊q⌋ < 1 / 2 then ⌊q⌋
  else if 1 / 2 < q - ⌊q⌋ then ⌊q⌋ + 1
  else if ⌊q⌋ % 2 = 0 then ⌊q⌋ else ⌊q⌋ + 1

/-- Embedding of Python int() on exact rationals: truncation toward zero. -/
def pytrunc (q : ℚ) : ℤ :=
  if 0 ≤ q then ⌊q⌋ else ⌈q⌉

/-- app.py line 44: overall_score = round(sum(values) / len(values)). -/
def overall_score (answers : List (String × ℚ)) : ℤ :=
  pyround ((answers.map Prod.snd).sum / (answers.length : ℚ))

/-- app.py lines 47-55: the fixed category table, one question number each. -/
def categories : List (String × List ℕ) :=
  [("Data Infrastructure", [1]),
   ("Process Maturity", [2]),
   ("Team Readiness", [3]),
   ("Financial Capacity", [4]),
   ("Problem Definition", [5]),
   ("Technical Foundation", [6]),
   ("Decision Authority", [7])]

/-- app.py lines 59-60: score of one category from its question list,
    round(sum(category_values) / len(category_values)) with answers.get(str(q), 0). -/
def category_score (answers : List (String × ℚ)) (qs : List ℕ) : ℤ :=
  pyround ((qs.map (fun q => (answers.lookup (toString q)).getD 0)).sum / (qs.length : ℚ))

/-- app.py lines 57-60: category_scores mapping, in declaration order. -/
def category_scores (answers : List (String × ℚ)) : List (String × ℤ) :=
  categories.map (fun c => (c.1, category_score answers c.2))

/-- app.py lines 63-98: the readiness-tier if chain, projected to the label. -/
def readiness_level (score : ℤ) : String :=
  if 80 ≤ score then "Highly Ready for AI"
  else if 60 ≤ score then "Ready with Some Preparation"
  else if 40 ≤ score then "Moderate Readiness"
  else "Early Stage"

/-- Comparison used by sorted(category_scores.items(), key=lambda x: x[1]). -/
def scoreLE (a b : String × ℤ) : Bool := decide (a.2 ≤ b.2)

/-- One step of a stable sort: insert a after every leading element whose
    score is ≤ the score of a. -/
def stableInsert (a : String × ℤ) : List (String × ℤ) → List (String × ℤ)
  | [] => [a]
  | b :: l => if scoreLE b a then b :: stableInsert a l else a :: b :: l

/-- Embedding of Python sorted(items, key=lambda x: x[1]): a stable sort by
    score, realised as left-to-right insertion sort (extensionally equal to
    any stable sort by the same key). -/
def pySortByScore (l : List (String × ℤ)) : List (String × ℤ) :=
  l.foldl (fun acc a => stableInsert a acc) []

/-- app.py line 101: weak_categories = sorted(items, key=score)[:3]. -/
def weak_categories (answers : List (String × ℚ)) : List (String × ℤ) :=
  (pySortByScore (category_scores answers)).take 3

/-- app.py line 162: weak_areas = [cat for cat, score in weak_categories]. -/
def weak_areas (answers : List (String × ℚ)) : List String :=
  (weak_categories answers).map Prod.fst

/-- Python truthiness of an optional string: None and the empty string are falsy. -/
def truthyStr : Option String → Bool
  | none => false
  | some s => !(s == "")

/-- Python truthiness of an integer: 0 is falsy. -/
def truthyInt (n : ℤ) : Bool := !(n == 0)

/-- One SQL statement issued by the service, as recorded in an effect trace. -/
inductive DbOp where
  | insertAssessment (company : String) (industry : Option String) (score : ℤ)
  | upsertIndustryReadiness (industry : String) (score : ℤ)
  | upsertWeakCategory (category : String) (score : ℤ)
  | upsertBlockingFactor (category : String) (score : ℤ)
  | upsertHighPerformer (scoreRange : String) (industry : Option String)
  | runAnalysis
deriving DecidableEq

/-- The POST /api/assess request body (app.py lines 31-37). -/
structure AssessRequest where
  company_name : Option String
  industry : Option String
  email : Option String
  answers : List (String × ℚ)
deriving DecidableEq

/-- app.py lines 39-152, assess_readiness: the sequence of database statements
    the handler issues before returning, or the 400 error on empty answers.
    The handler issues the assessment insert, then the industry_readiness upsert
    guarded by Python truthiness of industry and overall_score (line 127), then
    one weak_category upsert per entry of weak_categories (lines 139-148).
    It never issues any other statement. -/
def assess_trace (req : AssessRequest) : Except String (List DbOp) :=
  if req.answers.isEmpty then Except.error "No answers provided"
  else
    Except.ok
      ([DbOp.insertAssessment (req.company_name.getD "Anonymous") req.industry
          (overall_score req.answers)]
        ++ (if truthyStr req.industry && truthyInt (overall_score req.answers) then
              [DbOp.upsertIndustryReadiness (req.industry.getD "") (overall_score req.answers)]
            else [])
        ++ (weak_categories req.answers).map (fun w => DbOp.upsertWeakCategory w.1 w.2))

/-- The assessment_data dict passed to CIPEngineReadiness.log_patterns. -/
structure AssessmentData where
  industry : Option String
  overall_score : ℤ
  category_scores : List (String × ℤ)
deriving DecidableEq

/-- cip_engine_readiness.py lines 40-105, log_patterns followed by
    _check_analysis_trigger: the ordered database statements issued.
    assessCount is the value the trigger reads with
    SELECT COUNT(*) FROM readiness_assessments. -/
def log_patterns_trace (a : AssessmentData) (assessCount : ℕ) : List DbOp :=
  (if truthyStr a.industry && truthyInt a.overall_score then
     [DbOp.upsertIndustryReadiness (a.industry.getD "") a.overall_score]
   else [])
  ++ a.category_scores.filterMap
       (fun cs => if cs.2 < 60 then some (DbOp.upsertBlockingFactor cs.1 cs.2) else none)
  ++ (if 75 ≤ a.overall_score then [DbOp.upsertHighPerformer "75+" a.industry] else [])
  ++ (if assessCount % 10 = 0 then [DbOp.runAnalysis] else [])

/-- One row of the readiness_patterns table; avg_score is NULL for rows
    created by the frequency-only high_performer upsert. -/
structure PatternRow where
  pattern_type : String
  pattern_data : String
  frequency : ℕ
  avg_score : Option ℚ
deriving DecidableEq

/-- Row matches the upsert key (pattern_type, pattern_data). -/
def keyEq (pt pd : String) (r : PatternRow) : Bool :=
  r.pattern_type == pt && r.pattern_data == pd

/-- The ON CONFLICT upsert used for industry_readiness, blocking_factor and
    weak_category patterns (app.py lines 128-148, cip_engine_readiness.py
    lines 54-76): insert (frequency 1, avg_score s), or on key conflict
    increment frequency and recompute
    avg_score = (avg_score * frequency + s) / (frequency + 1). -/
def upsertPatternScore (t : List PatternRow) (pt pd : String) (s : ℚ) : List PatternRow :=
  if t.any (keyEq pt pd) then
    t.map (fun r =>
      if keyEq pt pd r then
        PatternRow.mk r.pattern_type r.pattern_data (r.frequency + 1)
          (r.avg_score.map (fun a => (a * (r.frequency : ℚ) + s) / ((r.frequency : ℚ) + 1)))
      else r)
  else t ++ [PatternRow.mk pt pd 1 (some s)]

/-- k successive upserts under one key with the given scores, in order. -/
def applyScores (t : List PatternRow) (pt pd : String) (ss : List ℚ) : List PatternRow :=
  ss.foldl (fun acc s => upsertPatternScore acc pt pd s) t

/-- One industry_readiness row as read back by the report queries
    (pattern_data projected to the industry name). -/
structure IndustryPattern where
  industry : String
  avg_score : ℚ
  frequency : ℕ
deriving DecidableEq

/-- One blocking_factor row as read back by the report queries. -/
structure BlockerPattern where
  category : String
  frequency : ℕ
  avg_score : ℚ
deriving DecidableEq

/-- One entry of the market_opportunities list in the monthly report. -/
structure Opportunity where
  opportunity : String
  market_size : ℕ
  avg_readiness : ℚ
  potential_conversions : ℚ
deriving DecidableEq

/-- cip_engine_readiness.py lines 266-274: for the first 3 of the avg-score
    ordered top industries, keep those with frequency at least 5 and emit an
    opportunity with potential_conversions = frequency * 0.52. -/
def market_opportunities (top_industries : List IndustryPattern) : List Opportunity :=
  (top_industries.take 3).filterMap (fun i =>
    if 5 ≤ i.frequency then
      some (Opportunity.mk ("Target " ++ i.industry ++ " - high AI readiness")
        i.frequency i.avg_score ((i.frequency : ℚ) * (52 / 100)))
    else none)

/-- cip_engine_readiness.py lines 324-342, _generate_recommendations:
    at most one TARGET string from the first opportunity, using int() of
    potential_conversions, then at most one BUILD string from the first blocker. -/
def generate_recommendations (opportunities : List Opportunity)
    (blockers : List BlockerPattern) : List String :=
  (match opportunities with
   | [] => []
   | o :: _ =>
     ["TARGET: " ++ o.opportunity ++ " - " ++ toString (pytrunc o.potential_conversions)
        ++ " potential Nuru conversions"])
  ++ (match blockers with
   | [] => []
   | b :: _ =>
     ["BUILD: " ++ b.category ++ " support template - " ++ toString b.frequency
        ++ " businesses need help here"])

end Tool4
namespace Tool4

/-- app.py lines 210-241, get_percentile: with the stored overall scores,
    percentile = round((count of stored scores strictly below the given score
    divided by total) * 100), and 50 when no assessments exist. -/
def get_percentile (stored : List ℤ) (score : ℤ) : ℤ :=
  if stored.length = 0 then 50
  else pyround ((((stored.filter (fun x => decide (x < score))).length : ℚ)
      / (stored.length : ℚ)) * 100)

/-- pyround of an integer is that integer. -/
theorem pyround_intCast (m : ℤ) : pyround (m : ℚ) = m := by
  unfold pyround
  have h : ((m : ℚ) - ⌊(m : ℚ)⌋ : ℚ) = 0 := by simp
  rw [Int.floor_intCast] at h ⊢
  norm_num [h]

/-- Evaluation helper: pyround of a rational known to be integral. -/
theorem pyround_eq_of (q : ℚ) (m : ℤ) (h : q = (m : ℚ)) : pyround q = m := by
  rw [h, pyround_intCast]

/-- pyround never goes below zero on nonnegative input. -/
theorem pyround_nonneg (q : ℚ) (h : 0 ≤ q) : 0 ≤ pyround q := by
  have hf : (0 : ℤ) ≤ ⌊q⌋ := Int.floor_nonneg.mpr h
  unfold pyround
  split_ifs <;> omega

/-- pyround never exceeds an integer bound on the input. -/
theorem pyround_le (q : ℚ) (m : ℤ) (h : q ≤ (m : ℚ)) : pyround q ≤ m := by
  have hfm : ⌊q⌋ ≤ m := by
    have := Int.floor_le_floor h
    rwa [Int.floor_intCast] at this
  have hfl : (⌊q⌋ : ℚ) ≤ q := Int.floor_le q
  unfold pyround
  split_ifs with h1 h2 h3
  · exact hfm
  · rcases lt_or_eq_of_le hfm with hlt | heq
    · omega
    · exfalso
      rw [heq] at h2
      have : q - (m : ℚ) ≤ 0 := by linarith
      linarith
  · exact hfm
  · rcases lt_or_eq_of_le hfm with hlt | heq
    · omega
    · exfalso
      have hge : (1 : ℚ) / 2 ≤ q - ⌊q⌋ := le_of_not_lt h1
      rw [heq] at hge
      have : q - (m : ℚ) ≤ 0 := by linarith
      linarith

/-- A category with a single assigned question scores the rounded value of that
    question (missing answers default to 0), matching app.py lines 59-60. -/
theorem category_score_single (answers : List (String × ℚ)) (q : ℕ) :
    category_score answers [q] = pyround ((answers.lookup (toString q)).getD 0) := by
  unfold category_score
  simp

theorem stableInsert_perm (a : String × ℤ) (l : List (String × ℤ)) :
    (stableInsert a l).Perm (a :: l) := by
  induction l with
  | nil => simp [stableInsert]
  | cons b l ih =>
    unfold stableInsert
    split_ifs
    · exact ((ih.cons b).trans (List.Perm.swap a b l))
    · exact List.Perm.refl _

theorem stableInsert_length (a : String × ℤ) (l : List (String × ℤ)) :
    (stableInsert a l).length = l.length + 1 := by
  have := (stableInsert_perm a l).length_eq
  simpa using this

theorem stableInsert_decomp (a : String × ℤ) (l : List (String × ℤ)) :
    ∃ l₁ l₂, l = l₁ ++ l₂ ∧ stableInsert a l = l₁ ++ a :: l₂ ∧
      ∀ b ∈ l₁, b.2 ≤ a.2 := by
  induction l with
  | nil => exact ⟨[], [], by simp [stableInsert]⟩
  | cons b l ih =>
    by_cases hba : scoreLE b a
    · obtain ⟨l₁, l₂, hl, hs, hle⟩ := ih
      refine ⟨b :: l₁, l₂, by simp [hl], ?_, ?_⟩
      · simp [stableInsert, hba, hs]
      · intro x hx
        rcases List.mem_cons.mp hx with h | h
        · subst h
          exact of_decide_eq_true hba
        · exact hle x h
    · exact ⟨[], b :: l, rfl, by simp [stableInsert, hba], by simp⟩

theorem stableInsert_pairwise (a : String × ℤ) (l : List (String × ℤ))
    (h : l.Pairwise (fun x y => x.2 ≤ y.2)) :
    (stableInsert a l).Pairwise (fun x y => x.2 ≤ y.2) := by
  induction l with
  | nil => simp [stableInsert]
  | cons b l ih =>
    rcases List.pairwise_cons.mp h with ⟨hb, hl⟩
    by_cases hba : scoreLE b a
    · have hba2 : b.2 ≤ a.2 := of_decide_eq_true hba
      rw [stableInsert, if_pos hba]
      refine List.pairwise_cons.mpr ⟨?_, ih hl⟩
      intro x hx
      rcases List.mem_cons.mp ((stableInsert_perm a l).mem_iff.mp hx) with h1 | h1
      · rw [show x = a from h1]
        exact hba2
      · exact hb x h1
    · have hab2 : a.2 ≤ b.2 := le_of_not_le (fun hc => hba (decide_eq_true hc))
      rw [stableInsert, if_neg hba]
      refine List.pairwise_cons.mpr ⟨?_, h⟩
      intro x hx
      rcases List.mem_cons.mp hx with h1 | h1
      · rw [show x = b from h1]
        exact hab2
      · exact le_trans hab2 (hb x h1)

theorem stableInsert_pair_sublist (a p q : String × ℤ) (l : List (String × ℤ))
    (h : [p, q].Sublist l) : [p, q].Sublist (stableInsert a l) := by
  obtain ⟨l₁, l₂, hl, hs, -⟩ := stableInsert_decomp a l
  rw [hs]
  refine h.trans ?_
  rw [hl]
  exact (List.append_sublist_append_left l₁).mpr (List.sublist_cons_self a l₂)

theorem stableInsert_pair_of_mem (a p : String × ℤ) (l : List (String × ℤ))
    (hsort : l.Pairwise (fun x y => x.2 ≤ y.2))
    (hp : p ∈ l) (hle : p.2 ≤ a.2) : [p, a].Sublist (stableInsert a l) := by
  induction l with
  | nil => simp at hp
  | cons b l ih =>
    rcases List.pairwise_cons.mp hsort with ⟨hb, hl⟩
    by_cases hba : scoreLE b a
    · rw [stableInsert, if_pos hba]
      rcases List.mem_cons.mp hp with h1 | h1
      · subst h1
        refine List.Sublist.cons₂ p ?_
        have hmem : a ∈ stableInsert a l := (stableInsert_perm a l).mem_iff.mpr (by simp)
        exact List.singleton_sublist.mpr hmem
      · exact (ih hl h1).cons b
    · exfalso
      have hab2 : a.2 < b.2 := lt_of_not_le (fun hc => hba (decide_eq_true hc))
      have hbp : b.2 ≤ p.2 := by
        rcases List.mem_cons.mp hp with h1 | h1
        · rw [h1]
        · exact hb p h1
      linarith

theorem sortFold_perm (rest acc : List (String × ℤ)) :
    (rest.foldl (fun acc a => stableInsert a acc) acc).Perm (acc ++ rest) := by
  induction rest generalizing acc with
  | nil => simp
  | cons b rest ih =>
    rw [List.foldl_cons]
    refine (ih (stableInsert b acc)).trans ?_
    refine ((stableInsert_perm b acc).append_right rest).trans ?_
    exact List.perm_middle.symm

theorem sortFold_pairwise (rest acc : List (String × ℤ))
    (h : acc.Pairwise (fun x y => x.2 ≤ y.2)) :
    (rest.foldl (fun acc a => stableInsert a acc) acc).Pairwise (fun x y => x.2 ≤ y.2) := by
  induction rest generalizing acc with
  | nil => simpa using h
  | cons b rest ih => exact ih _ (stableInsert_pairwise b acc h)

theorem sortFold_pair_sublist (p q : String × ℤ) (rest acc : List (String × ℤ))
    (h : [p, q].Sublist acc) :
    [p, q].Sublist (rest.foldl (fun acc a => stableInsert a acc) acc) := by
  induction rest generalizing acc with
  | nil => simpa using h
  | cons b rest ih => exact ih _ (stableInsert_pair_sublist b p q acc h)

theorem sortFold_pair_of_mem (p q : String × ℤ) (rest acc : List (String × ℤ))
    (hsort : acc.Pairwise (fun x y => x.2 ≤ y.2))
    (hp : p ∈ acc) (hq : q ∈ rest) (hle : p.2 ≤ q.2) :
    [p, q].Sublist (rest.foldl (fun acc a => stableInsert a acc) acc) := by
  induction rest generalizing acc with
  | nil => simp at hq
  | cons b rest ih =>
    rcases List.mem_cons.mp hq with h1 | h1
    · subst h1
      exact sortFold_pair_sublist p q rest _
        (stableInsert_pair_of_mem q p acc hsort hp hle)
    · exact ih _ (stableInsert_pairwise b acc hsort)
        ((stableInsert_perm b acc).mem_iff.mpr (List.mem_cons_of_mem b hp)) h1

theorem sortFold_pair_of_rest (p q : String × ℤ) (rest acc : List (String × ℤ))
    (hsort : acc.Pairwise (fun x y => x.2 ≤ y.2))
    (h : [p, q].Sublist rest) (hle : p.2 ≤ q.2) :
    [p, q].Sublist (rest.foldl (fun acc a => stableInsert a acc) acc) := by
  induction rest generalizing acc with
  | nil => simp at h
  | cons b rest ih =>
    cases h with
    | cons _ h2 => exact ih _ (stableInsert_pairwise b acc hsort) h2
    | cons₂ _ h2 =>
      have hq : q ∈ rest := List.singleton_sublist.mp h2
      exact sortFold_pair_of_mem p q rest _ (stableInsert_pairwise p acc hsort)
        ((stableInsert_perm p acc).mem_iff.mpr (List.mem_cons_self p acc)) hq hle

theorem pySortByScore_perm (l : List (String × ℤ)) : (pySortByScore l).Perm l := by
  simpa using sortFold_perm l []

theorem pySortByScore_pairwise (l : List (String × ℤ)) :
    (pySortByScore l).Pairwise (fun x y => x.2 ≤ y.2) :=
  sortFold_pairwise l [] (List.Pairwise.nil)

theorem pySortByScore_stable (p q : String × ℤ) (l : List (String × ℤ))
    (h : [p, q].Sublist l) (hle : p.2 ≤ q.2) : [p, q].Sublist (pySortByScore l) :=
  sortFold_pair_of_rest p q l [] (List.Pairwise.nil) h hle

/-- The fresh row inserted when the upsert key is absent. -/
theorem upsertPatternScore_not_found (t : List PatternRow) (pt pd : String) (s : ℚ)
    (h : t.countP (keyEq pt pd) = 0) :
    upsertPatternScore t pt pd s = t ++ [PatternRow.mk pt pd 1 (some s)] := by
  have hany : t.any (keyEq pt pd) = false := by
    rw [List.any_eq_false]
    intro x hx
    have := List.countP_eq_zero.mp h x hx
    simpa using this
  unfold upsertPatternScore
  rw [hany]
  simp

/-- The conflict branch of the upsert: the unique matching row gets
    frequency + 1 and the incremental-mean update, nothing else changes. -/
theorem upsertPatternScore_found (t : List PatternRow) (pt pd : String) (s : ℚ)
    (n : ℕ) (a : ℚ)
    (hc : t.countP (keyEq pt pd) = 1)
    (hrow : ∀ r ∈ t, keyEq pt pd r → r.frequency = n ∧ r.avg_score = some a) :
    (upsertPatternScore t pt pd s).countP (keyEq pt pd) = 1 ∧
    ∀ r ∈ upsertPatternScore t pt pd s, keyEq pt pd r →
      r.frequency = n + 1 ∧
      r.avg_score = some ((a * (n : ℚ) + s) / ((n : ℚ) + 1)) := by
  have hex : ∃ r ∈ t, keyEq pt pd r := by
    have : 0 < t.countP (keyEq pt pd) := by omega
    exact List.countP_pos_iff.mp this
  have hany : t.any (keyEq pt pd) = true := List.any_eq_true.mpr hex
  have hpres : ∀ r : PatternRow,
      keyEq pt pd (if keyEq pt pd r then
        PatternRow.mk r.pattern_type r.pattern_data (r.frequency + 1)
          (r.avg_score.map (fun a => (a * (r.frequency : ℚ) + s) / ((r.frequency : ℚ) + 1)))
      else r) = keyEq pt pd r := by
    intro r
    by_cases hr : keyEq pt pd r
    · rw [if_pos hr]
      unfold keyEq at hr ⊢
      simp_all
    · rw [if_neg hr]
  unfold upsertPatternScore
  rw [hany]
  simp only [if_pos]
  constructor
  · rw [List.countP_map]
    calc t.countP ((keyEq pt pd) ∘ _) = t.countP (keyEq pt pd) :=
          List.countP_congr (fun r _ => by
            rw [Function.comp_apply, hpres r])
      _ = 1 := hc
  · intro r hr hkey
    rcases List.mem_map.mp hr with ⟨x, hx, hfx⟩
    have hkx : keyEq pt pd x = true := by
      rw [← hpres x, hfx]
      exact hkey
    rcases hrow x hx hkx with ⟨hfreq, havg⟩
    rw [← hfx, if_pos hkx]
    constructor
    · simp [hfreq]
    · rw [havg, hfreq]
      rfl

end Tool4
namespace Tool4

/-- Running-mean invariant: starting from a table whose unique key row holds
    the mean of n earlier scores, folding further scores keeps one row whose
    frequency counts all scores and whose avg_score is the combined mean. -/
theorem applyScores_inv (pt pd : String) :
    ∀ (ss : List ℚ) (t : List PatternRow) (n : ℕ) (a : ℚ), 0 < n →
    t.countP (keyEq pt pd) = 1 →
    (∀ r ∈ t, keyEq pt pd r → r.frequency = n ∧ r.avg_score = some a) →
    (applyScores t pt pd ss).countP (keyEq pt pd) = 1 ∧
    ∀ r ∈ applyScores t pt pd ss, keyEq pt pd r →
      r.frequency = n + ss.length ∧
      r.avg_score = some ((a * (n : ℚ) + ss.sum) / ((n : ℚ) + (ss.length : ℚ))) := by
  intro ss
  induction ss with
  | nil =>
    intro t n a hn hc hrow
    refine ⟨hc, ?_⟩
    intro r hr hkey
    rcases hrow r hr hkey with ⟨hf, ha⟩
    have hnq : ((n : ℚ)) ≠ 0 := by positivity
    refine ⟨by simpa using hf, ?_⟩
    rw [ha]
    congr 1
    field_simp
  | cons s rest ih =>
    intro t n a hn hc hrow
    have hstep := upsertPatternScore_found t pt pd s n a hc hrow
    have hnq : ((n : ℚ)) + 1 ≠ 0 := by positivity
    have hres := ih (upsertPatternScore t pt pd s) (n + 1)
      ((a * (n : ℚ) + s) / ((n : ℚ) + 1)) (by omega) hstep.1
      (by
        intro r hr hkey
        have := hstep.2 r hr hkey
        refine ⟨this.1, ?_⟩
        rw [this.2])
    refine ⟨hres.1, ?_⟩
    intro r hr hkey
    rcases hres.2 r hr hkey with ⟨hf, ha⟩
    constructor
    · rw [hf]
      simp
      omega
    · rw [ha]
      congr 1
      have hd : ((n : ℚ)) + 1 + ((rest.length : ℚ)) ≠ 0 := by positivity
      push_cast
      field_simp
      ring
  

/-- Folding k scores under a fresh key leaves exactly one row for that key,
    with frequency k and avg_score the arithmetic mean of the scores. -/
theorem applyScores_fresh (pt pd : String) (ss : List ℚ) (t : List PatternRow)
    (h0 : t.countP (keyEq pt pd) = 0) (hne : ss ≠ []) :
    (applyScores t pt pd ss).countP (keyEq pt pd) = 1 ∧
    ∀ r ∈ applyScores t pt pd ss, keyEq pt pd r →
      r.frequency = ss.length ∧ r.avg_score = some (ss.sum / (ss.length : ℚ)) := by
  match ss, hne with
  | s :: rest, _ =>
    have hbase := upsertPatternScore_not_found t pt pd s h0
    have hc1 : (upsertPatternScore t pt pd s).countP (keyEq pt pd) = 1 := by
      rw [hbase, List.countP_append, h0]
      simp [keyEq]
    have hrow1 : ∀ r ∈ upsertPatternScore t pt pd s, keyEq pt pd r →
        r.frequency = 1 ∧ r.avg_score = some s := by
      rw [hbase]
      intro r hr hkey
      rcases List.mem_append.mp hr with h1 | h1
      · exfalso
        have := List.countP_eq_zero.mp h0 r h1
        simp [hkey] at this
      · rcases List.mem_singleton.mp h1 with rfl
        exact ⟨rfl, rfl⟩
    have := applyScores_inv pt pd rest (upsertPatternScore t pt pd s) 1 s
      (by omega) hc1 hrow1
    refine ⟨this.1, ?_⟩
    intro r hr hkey
    rcases this.2 r hr hkey with ⟨hf, ha⟩
    constructor
    · rw [hf]
      simp
      omega
    · rw [ha]
      congr 1
      push_cast [List.sum_cons, List.length_cons]
      ring

end Tool4
namespace Tool4

/-- C1: for every non-empty answers mapping whose values all lie in [0,100],
    overall_score equals the arithmetic mean of the submitted values rounded
    to the nearest integer (Python round, half to even), and lies in [0,100]. -/
theorem C1_overall_score_mean_bounds (answers : List (String × ℚ))
    (hne : answers ≠ [])
    (hb : ∀ p ∈ answers, 0 ≤ p.2 ∧ p.2 ≤ 100) :
    overall_score answers
      = pyround ((answers.map Prod.snd).sum / (answers.length : ℚ)) ∧
    0 ≤ overall_score answers ∧ overall_score answers ≤ 100 := by
  have hlen : 0 < answers.length := List.length_pos.mpr hne
  have hlq : (0 : ℚ) < (answers.length : ℚ) := by exact_mod_cast hlen
  have hsum0 : 0 ≤ (answers.map Prod.snd).sum := by
    refine List.sum_nonneg ?_
    intro v hv
    rcases List.mem_map.mp hv with ⟨p, hp, hvp⟩
    rw [← hvp]
    exact (hb p hp).1
  have hsumle : (answers.map Prod.snd).sum ≤ (answers.length : ℚ) * 100 := by
    have h1 : (answers.map Prod.snd).sum ≤ (answers.map Prod.snd).length • (100 : ℚ) := by
      refine List.sum_le_card_nsmul _ _ ?_
      intro v hv
      rcases List.mem_map.mp hv with ⟨p, hp, hvp⟩
      rw [← hvp]
      exact (hb p hp).2
    rw [List.length_map, nsmul_eq_mul] at h1
    exact h1
  have hmean0 : 0 ≤ (answers.map Prod.snd).sum / (answers.length : ℚ) :=
    div_nonneg hsum0 (le_of_lt hlq)
  have hmean100 : (answers.map Prod.snd).sum / (answers.length : ℚ) ≤ ((100 : ℤ) : ℚ) := by
    rw [div_le_iff₀ hlq]
    push_cast
    linarith
  exact ⟨rfl, pyround_nonneg _ hmean0, pyround_le _ 100 hmean100⟩

/-- Witness for C1 at answers containing values 90 and 85. -/
theorem C1_witness :
    0 ≤ overall_score [("1", (90 : ℚ)), ("2", 85)] ∧
    overall_score [("1", (90 : ℚ)), ("2", 85)] ≤ 100 :=
  (C1_overall_score_mean_bounds [("1", (90 : ℚ)), ("2", 85)] (by simp)
    (by
      intro p hp
      rcases List.mem_cons.mp hp with h | h
      · rw [h]
        norm_num
      · rcases List.mem_singleton.mp h with rfl
        norm_num)).2

/-- C2: the readiness tiers form a total, mutually exclusive partition of the
    integer scores, selected in the order of app.py lines 63-98. -/
theorem C2_tier_partition (s : ℤ) :
    (readiness_level s = "Highly Ready for AI" ↔ 80 ≤ s) ∧
    (readiness_level s = "Ready with Some Preparation" ↔ 60 ≤ s ∧ s < 80) ∧
    (readiness_level s = "Moderate Readiness" ↔ 40 ≤ s ∧ s < 60) ∧
    (readiness_level s = "Early Stage" ↔ s < 40) := by
  unfold readiness_level
  split_ifs with h1 h2 h3 <;>
    refine ⟨⟨fun hh => ?_, fun hh => ?_⟩, ⟨fun hh => ?_, fun hh => ?_⟩,
            ⟨fun hh => ?_, fun hh => ?_⟩, ⟨fun hh => ?_, fun hh => ?_⟩⟩ <;>
    first
      | rfl
      | omega
      | (exact absurd hh (by decide))

/-- Witness for C2 at score 85. -/
theorem C2_witness : readiness_level 85 = "Highly Ready for AI" :=
  (C2_tier_partition 85).1.mpr (by decide)

/-- C3: k upserts under one fresh key leave exactly one row for that key,
    with frequency k and avg_score the arithmetic mean of the contributed
    scores, independent of the order in which the scores arrive. -/
theorem C3_upsert_running_mean (pt pd : String) (ss : List ℚ) (t : List PatternRow)
    (h0 : t.countP (keyEq pt pd) = 0) (hne : ss ≠ []) :
    (applyScores t pt pd ss).countP (keyEq pt pd) = 1 ∧
    (∀ r ∈ applyScores t pt pd ss, keyEq pt pd r →
      r.frequency = ss.length ∧ r.avg_score = some (ss.sum / (ss.length : ℚ))) ∧
    (∀ ss2 : List ℚ, ss2.Perm ss →
      ∀ r ∈ applyScores t pt pd ss2, keyEq pt pd r →
        r.frequency = ss.length ∧ r.avg_score = some (ss.sum / (ss.length : ℚ))) := by
  have base := applyScores_fresh pt pd ss t h0 hne
  refine ⟨base.1, base.2, ?_⟩
  intro ss2 hperm r hr hkey
  have hne2 : ss2 ≠ [] := by
    intro hc
    rw [hc] at hperm
    exact hne hperm.nil_eq.symm
  have b2 := applyScores_fresh pt pd ss2 t h0 hne2
  rcases b2.2 r hr hkey with ⟨hf, ha⟩
  rw [hperm.length_eq] at hf
  rw [hperm.sum_eq, hperm.length_eq] at ha
  exact ⟨hf, ha⟩

/-- Witness for C3: two scores under the industry_readiness key. -/
theorem C3_witness :
    (applyScores [] "industry_readiness" "Tech" [80, 60]).countP
      (keyEq "industry_readiness" "Tech") = 1 :=
  (C3_upsert_running_mean "industry_readiness" "Tech" [80, 60] []
    (by simp) (by simp)).1

end Tool4
namespace Tool4

/-- C6: weak_areas has length min(3, number of categories); weak_categories
    is the ascending-by-score prefix of a stable sort of category_scores:
    its entries are below every dropped entry, the sorted list is a
    permutation of category_scores, and equal scores keep declaration order. -/
theorem C6_weak_areas (answers : List (String × ℚ)) :
    (weak_areas answers).length = min 3 categories.length ∧
    (weak_categories answers).Pairwise (fun x y => x.2 ≤ y.2) ∧
    (∀ x ∈ weak_categories answers,
      ∀ y ∈ (pySortByScore (category_scores answers)).drop 3, x.2 ≤ y.2) ∧
    (pySortByScore (category_scores answers)).Perm (category_scores answers) ∧
    (∀ p q : String × ℤ, [p, q].Sublist (category_scores answers) → p.2 = q.2 →
      [p, q].Sublist (pySortByScore (category_scores answers))) := by
  have hsortlen : (pySortByScore (category_scores answers)).length = categories.length := by
    rw [(pySortByScore_perm (category_scores answers)).length_eq]
    unfold category_scores
    rw [List.length_map]
  refine ⟨?_, ?_, ?_, pySortByScore_perm _, ?_⟩
  · unfold weak_areas weak_categories
    rw [List.length_map, List.length_take, hsortlen]
  · exact (pySortByScore_pairwise (category_scores answers)).sublist
      (List.take_sublist 3 _)
  · have hpw := pySortByScore_pairwise (category_scores answers)
    rw [← List.take_append_drop 3 (pySortByScore (category_scores answers))] at hpw
    exact fun x hx y hy => (List.pairwise_append.mp hpw).2.2 x hx y hy
  · exact fun p q hsub heq => pySortByScore_stable p q _ hsub (le_of_eq heq)

/-- Witness for C6 at a concrete answers mapping. -/
theorem C6_witness :
    (weak_areas [("1", (80 : ℚ))]).length = min 3 categories.length :=
  (C6_weak_areas [("1", (80 : ℚ))]).1

/-- C7: each of the 7 fixed categories scores the rounded value of its single
    assigned question with missing answers defaulting to 0; on the scenario
    answers 10, 20, 15 the four unanswered categories score 0, overall_score
    is 15, and the tier is Early Stage. -/
theorem C7_category_single_question :
    (∀ (answers : List (String × ℚ)) (c : String) (q : ℕ), (c, [q]) ∈ categories →
      (category_scores answers).lookup c
        = some (pyround ((answers.lookup (toString q)).getD 0))) ∧
    category_scores [("1", (10 : ℚ)), ("2", 20), ("3", 15)]
      = [("Data Infrastructure", 10), ("Process Maturity", 20), ("Team Readiness", 15),
         ("Financial Capacity", 0), ("Problem Definition", 0), ("Technical Foundation", 0),
         ("Decision Authority", 0)] ∧
    overall_score [("1", (10 : ℚ)), ("2", 20), ("3", 15)] = 15 ∧
    readiness_level (overall_score [("1", (10 : ℚ)), ("2", 20), ("3", 15)])
      = "Early Stage" := by
  have hov : overall_score [("1", (10 : ℚ)), ("2", 20), ("3", 15)] = 15 := by
    unfold overall_score
    have h : (([("1", (10 : ℚ)), ("2", 20), ("3", 15)].map Prod.snd).sum
        / (([("1", (10 : ℚ)), ("2", 20), ("3", 15)].length : ℚ))) = ((15 : ℤ) : ℚ) := by
      simp
      norm_num
    rw [h, pyround_intCast]
  refine ⟨?_, ?_, hov, by rw [hov]; decide⟩
  · intro answers c q hmem
    simp only [categories, List.mem_cons, List.not_mem_nil, or_false,
      Prod.mk.injEq, List.cons.injEq, and_true] at hmem
    rcases hmem with ⟨hc, hq⟩ | ⟨hc, hq⟩ | ⟨hc, hq⟩ | ⟨hc, hq⟩ | ⟨hc, hq⟩ | ⟨hc, hq⟩ | ⟨hc, hq⟩ <;>
      subst hc <;> subst hq
    · rw [show (category_scores answers).lookup "Data Infrastructure"
          = some (category_score answers [1]) from rfl, category_score_single]
    · rw [show (category_scores answers).lookup "Process Maturity"
          = some (category_score answers [2]) from rfl, category_score_single]
    · rw [show (category_scores answers).lookup "Team Readiness"
          = some (category_score answers [3]) from rfl, category_score_single]
    · rw [show (category_scores answers).lookup "Financial Capacity"
          = some (category_score answers [4]) from rfl, category_score_single]
    · rw [show (category_scores answers).lookup "Problem Definition"
          = some (category_score answers [5]) from rfl, category_score_single]
    · rw [show (category_scores answers).lookup "Technical Foundation"
          = some (category_score answers [6]) from rfl, category_score_single]
    · rw [show (category_scores answers).lookup "Decision Authority"
          = some (category_score answers [7]) from rfl, category_score_single]
  · have e1 : category_score [("1", (10 : ℚ)), ("2", 20), ("3", 15)] [1] = 10 := by
      rw [category_score_single, show toString (1 : ℕ) = "1" from rfl]
      simp [List.lookup]
      exact pyround_eq_of _ 10 (by norm_num)
    have e2 : category_score [("1", (10 : ℚ)), ("2", 20), ("3", 15)] [2] = 20 := by
      rw [category_score_single, show toString (2 : ℕ) = "2" from rfl]
      simp [List.lookup]
      exact pyround_eq_of _ 20 (by norm_num)
    have e3 : category_score [("1", (10 : ℚ)), ("2", 20), ("3", 15)] [3] = 15 := by
      rw [category_score_single, show toString (3 : ℕ) = "3" from rfl]
      simp [List.lookup]
      exact pyround_eq_of _ 15 (by norm_num)
    have e4 : category_score [("1", (10 : ℚ)), ("2", 20), ("3", 15)] [4] = 0 := by
      rw [category_score_single, show toString (4 : ℕ) = "4" from rfl]
      simp [List.lookup]
      exact pyround_eq_of _ 0 (by norm_num)
    have e5 : category_score [("1", (10 : ℚ)), ("2", 20), ("3", 15)] [5] = 0 := by
      rw [category_score_single, show toString (5 : ℕ) = "5" from rfl]
      simp [List.lookup]
      exact pyround_eq_of _ 0 (by norm_num)
    have e6 : category_score [("1", (10 : ℚ)), ("2", 20), ("3", 15)] [6] = 0 := by
      rw [category_score_single, show toString (6 : ℕ) = "6" from rfl]
      simp [List.lookup]
      exact pyround_eq_of _ 0 (by norm_num)
    have e7 : category_score [("1", (10 : ℚ)), ("2", 20), ("3", 15)] [7] = 0 := by
      rw [category_score_single, show toString (7 : ℕ) = "7" from rfl]
      simp [List.lookup]
      exact pyround_eq_of _ 0 (by norm_num)
    simp [category_scores, categories, e1, e2, e3, e4, e5, e6, e7]

/-- Witness for C7: the Team Readiness category reads question 3. -/
theorem C7_witness :
    (category_scores [("3", (40 : ℚ))]).lookup "Team Readiness"
      = some (pyround (([("3", (40 : ℚ))].lookup (toString (3 : ℕ))).getD 0)) :=
  C7_category_single_question.1 [("3", (40 : ℚ))] "Team Readiness" 3 (by simp [categories])

/-- C8: the percentile endpoint returns round(100 * count(stored < given) /
    total), 50 when nothing is stored, 0 below all stored scores and 100
    above all stored scores. -/
theorem C8_percentile (stored : List ℤ) (score : ℤ) :
    (stored = [] → get_percentile stored score = 50) ∧
    (stored ≠ [] → get_percentile stored score =
      pyround ((((stored.filter (fun x => decide (x < score))).length : ℚ)
        / (stored.length : ℚ)) * 100)) ∧
    (stored ≠ [] → (∀ x ∈ stored, score < x) → get_percentile stored score = 0) ∧
    (stored ≠ [] → (∀ x ∈ stored, x < score) → get_percentile stored score = 100) := by
  refine ⟨?_, ?_, ?_, ?_⟩
  · intro h
    rw [h]
    rfl
  · intro h
    unfold get_percentile
    rw [if_neg (by simpa using h)]
  · intro h hall
    have hfil : stored.filter (fun x => decide (x < score)) = [] := by
      refine List.filter_eq_nil_iff.mpr ?_
      intro x hx
      have := hall x hx
      simp
      omega
    unfold get_percentile
    rw [if_neg (by simpa using h), hfil]
    exact pyround_eq_of _ 0 (by simp)
  · intro h hall
    have hfil : stored.filter (fun x => decide (x < score)) = stored := by
      refine List.filter_eq_self.mpr ?_
      intro x hx
      have := hall x hx
      simpa using this
    have hlq : ((stored.length : ℚ)) ≠ 0 := by
      have : stored.length ≠ 0 := by simpa using h
      exact_mod_cast this
    unfold get_percentile
    rw [if_neg (by simpa using h), hfil]
    refine pyround_eq_of _ 100 ?_
    rw [div_self hlq]
    norm_num

/-- Witness for C8: one stored score 42, queried at 50. -/
theorem C8_witness : get_percentile [42] 50 = 100 :=
  (C8_percentile [42] 50).2.2.2 (by simp) (by
    intro x hx
    rcases List.mem_singleton.mp hx with rfl
    omega)

end Tool4
namespace Tool4

/-- C5: in the pattern-logging routine, a blocking_factor upsert carrying a
    category and its score occurs exactly for the categories scoring
    strictly below 60. -/
theorem C5_blocking_threshold (a : AssessmentData) (assessCount : ℕ)
    (c : String) (sc : ℤ) :
    ((c, sc) ∈ a.category_scores ∧ sc < 60 →
      DbOp.upsertBlockingFactor c sc ∈ log_patterns_trace a assessCount) ∧
    (DbOp.upsertBlockingFactor c sc ∈ log_patterns_trace a assessCount → sc < 60) := by
  constructor
  · rintro ⟨hmem, hlt⟩
    unfold log_patterns_trace
    refine List.mem_append.mpr (Or.inl (List.mem_append.mpr (Or.inl
      (List.mem_append.mpr (Or.inr ?_)))))
    exact List.mem_filterMap.mpr ⟨(c, sc), hmem, by rw [if_pos hlt]⟩
  · intro h
    unfold log_patterns_trace at h
    rcases List.mem_append.mp h with h123 | h4
    · rcases List.mem_append.mp h123 with h12 | h3
      · rcases List.mem_append.mp h12 with h1 | h2
        · by_cases hg : (truthyStr a.industry && truthyInt a.overall_score) = true
          · simp [hg] at h1
          · simp [hg] at h1
        · rcases List.mem_filterMap.mp h2 with ⟨cs, hcs, heq⟩
          by_cases hlt : cs.2 < 60
          · rw [if_pos hlt] at heq
            cases Option.some.inj heq
            exact hlt
          · rw [if_neg hlt] at heq
            exact absurd heq (by simp)
      · by_cases hg : 75 ≤ a.overall_score
        · simp [hg] at h3
        · simp [hg] at h3
    · by_cases hg : assessCount % 10 = 0
      · simp [hg] at h4
      · simp [hg] at h4

/-- Witness for C5: Team Readiness scoring 30 is logged as a blocking factor. -/
theorem C5_witness :
    DbOp.upsertBlockingFactor "Team Readiness" 30 ∈
      log_patterns_trace (AssessmentData.mk (some "Tech") 65 [("Team Readiness", 30)]) 1 :=
  (C5_blocking_threshold (AssessmentData.mk (some "Tech") 65 [("Team Readiness", 30)])
    1 "Team Readiness" 30).1 ⟨by simp, by omega⟩

/-- C10: when industry is absent or empty, or overall_score is 0, Python
    truthiness suppresses the industry_readiness upsert, both in the HTTP
    handler trace and in the CIP engine pattern-logging trace. -/
theorem C10_truthiness_gate :
    (∀ (req : AssessRequest) (t : List DbOp), assess_trace req = Except.ok t →
      (req.industry = none ∨ req.industry = some "" ∨ overall_score req.answers = 0) →
      ∀ i s, DbOp.upsertIndustryReadiness i s ∉ t) ∧
    (∀ (a : AssessmentData) (assessCount : ℕ),
      (a.industry = none ∨ a.industry = some "" ∨ a.overall_score = 0) →
      ∀ i s, DbOp.upsertIndustryReadiness i s ∉ log_patterns_trace a assessCount) := by
  constructor
  · intro req t htr hfalsy i s hmem
    unfold assess_trace at htr
    by_cases he : req.answers.isEmpty
    · rw [if_pos he] at htr
      exact absurd htr (by simp)
    · rw [if_neg he] at htr
      have hg : (truthyStr req.industry && truthyInt (overall_score req.answers)) = false := by
        rcases hfalsy with h | h | h <;> simp [truthyStr, truthyInt, h]
      rcases Except.ok.inj htr with rfl
      rw [hg] at hmem
      simp at hmem
  · intro a assessCount hfalsy i s hmem
    have hg : (truthyStr a.industry && truthyInt a.overall_score) = false := by
      rcases hfalsy with h | h | h <;> simp [truthyStr, truthyInt, h]
    unfold log_patterns_trace at hmem
    rw [hg] at hmem
    rcases List.mem_append.mp hmem with h123 | h4
    swap
    · by_cases hg2 : assessCount % 10 = 0
      · simp [hg2] at h4
      · simp [hg2] at h4
    rcases List.mem_append.mp h123 with h12 | h3
    swap
    · by_cases hg2 : 75 ≤ a.overall_score
      · simp [hg2] at h3
      · simp [hg2] at h3
    rcases List.mem_append.mp h12 with h1 | h23
    · simp at h1
    · rcases List.mem_filterMap.mp h23 with ⟨cs, hcs, heq⟩
      by_cases hlt : cs.2 < 60
      · rw [if_pos hlt] at heq
        exact absurd (Option.some.inj heq) (by simp)
      · rw [if_neg hlt] at heq
        exact absurd heq (by simp)

/-- Witness for C10: engine trace with industry present but score 0. -/
theorem C10_witness :
    DbOp.upsertIndustryReadiness "Tech" 0 ∉
      log_patterns_trace (AssessmentData.mk (some "Tech") 0 []) 3 :=
  C10_truthiness_gate.2 (AssessmentData.mk (some "Tech") 0 []) 3
    (Or.inr (Or.inr rfl)) "Tech" 0

/-- The /api/assess handler never issues the pattern-analysis call: its trace
    consists only of the assessment insert, the optional industry_readiness
    upsert and the weak_category upserts (app.py lines 104-152). -/
theorem assess_trace_no_analysis (req : AssessRequest) (t : List DbOp)
    (htr : assess_trace req = Except.ok t) : DbOp.runAnalysis ∉ t := by
  intro hmem
  unfold assess_trace at htr
  by_cases he : req.answers.isEmpty
  · rw [if_pos he] at htr
    exact absurd htr (by simp)
  · rw [if_neg he] at htr
    rcases Except.ok.inj htr with rfl
    rcases List.mem_append.mp hmem with h12 | h3
    · rcases List.mem_append.mp h12 with h1 | h2
      · simp at h1
      · by_cases hg : (truthyStr req.industry && truthyInt (overall_score req.answers)) = true
        · simp [hg] at h2
        · simp [hg] at h2
    · simp at h3

/-- C4: a request whose insert makes the stored-assessment count 10 (9 prior
    rows) completes with a handler trace that never invokes the pattern
    analysis: app.py neither imports nor calls the CIP engine. -/
theorem C4_no_insight_on_tenth :
    (9 + 1) % 10 = 0 ∧
    ∃ t, assess_trace (AssessRequest.mk (some "Acme") (some "Tech") none [("1", 80)])
        = Except.ok t ∧ DbOp.runAnalysis ∉ t := by
  refine ⟨by norm_num, ?_⟩
  obtain ⟨t, ht⟩ : ∃ t, assess_trace
      (AssessRequest.mk (some "Acme") (some "Tech") none [("1", 80)]) = Except.ok t := by
    unfold assess_trace
    rw [if_neg (by simp)]
    exact ⟨_, rfl⟩
  exact ⟨t, ht, assess_trace_no_analysis _ _ ht⟩

end Tool4
namespace Tool4

/-- Counterexample for C9: one industry pattern with frequency 5 gives
    potential_conversions 2.6; the recommendation prints int(2.6) = 2,
    while rounding 2.6 gives 3, so the recommendation does not carry the
    rounded potential-conversion count. -/
theorem C9_counterexample :
    market_opportunities [IndustryPattern.mk "Tech" 80 5]
      = [Opportunity.mk "Target Tech - high AI readiness" 5 80 ((5 : ℚ) * (52 / 100))] ∧
    pyround ((5 : ℚ) * (52 / 100)) = 3 ∧
    pytrunc ((5 : ℚ) * (52 / 100)) = 2 ∧
    generate_recommendations (market_opportunities [IndustryPattern.mk "Tech" 80 5]) []
      = ["TARGET: Target Tech - high AI readiness - 2 potential Nuru conversions"] ∧
    generate_recommendations (market_opportunities [IndustryPattern.mk "Tech" 80 5]) []
      ≠ ["TARGET: Target Tech - high AI readiness - "
          ++ toString (pyround ((5 : ℚ) * (52 / 100))) ++ " potential Nuru conversions"] := by
  have hfloor : ⌊(5 : ℚ) * (52 / 100)⌋ = 2 := by norm_num
  have hround : pyround ((5 : ℚ) * (52 / 100)) = 3 := by
    unfold pyround
    rw [hfloor]
    rw [if_neg (by norm_num), if_pos (by norm_num)]
    norm_num
  have htrunc : pytrunc ((5 : ℚ) * (52 / 100)) = 2 := by
    unfold pytrunc
    rw [if_pos (by norm_num), hfloor]
  have hopp : market_opportunities [IndustryPattern.mk "Tech" 80 5]
      = [Opportunity.mk "Target Tech - high AI readiness" 5 80 ((5 : ℚ) * (52 / 100))] := by
    unfold market_opportunities
    simp
  have hrec : generate_recommendations
        (market_opportunities [IndustryPattern.mk "Tech" 80 5]) []
      = ["TARGET: Target Tech - high AI readiness - 2 potential Nuru conversions"] := by
    rw [hopp]
    have hred : generate_recommendations
        [Opportunity.mk "Target Tech - high AI readiness" 5 80 ((5 : ℚ) * (52 / 100))] []
      = ["TARGET: " ++ "Target Tech - high AI readiness" ++ " - "
          ++ toString (pytrunc ((5 : ℚ) * (52 / 100))) ++ " potential Nuru conversions"] := rfl
    rw [hred, htrunc]
    rfl
  refine ⟨hopp, hround, htrunc, hrec, ?_⟩
  rw [hrec, hround]
  decide

/-- C9 amended: each of the first 3 top industries with frequency at least 5
    yields an opportunity with potential_conversions = frequency * 0.52, and
    the first recommendation names the top opportunity with its
    potential-conversion count truncated toward zero (Python int), not rounded. -/
theorem C9_market_opportunities (ti : List IndustryPattern) (blockers : List BlockerPattern) :
    (∀ o ∈ market_opportunities ti, ∃ i, i ∈ ti.take 3 ∧ 5 ≤ i.frequency ∧
      o.market_size = i.frequency ∧ o.avg_readiness = i.avg_score ∧
      o.potential_conversions = (i.frequency : ℚ) * (52 / 100)) ∧
    (∀ i ∈ ti.take 3, 5 ≤ i.frequency →
      Opportunity.mk ("Target " ++ i.industry ++ " - high AI readiness")
        i.frequency i.avg_score ((i.frequency : ℚ) * (52 / 100)) ∈ market_opportunities ti) ∧
    (∀ o rest2, market_opportunities ti = o :: rest2 →
      (generate_recommendations (market_opportunities ti) blockers).head? =
        some ("TARGET: " ++ o.opportunity ++ " - " ++ toString (pytrunc o.potential_conversions)
          ++ " potential Nuru conversions")) := by
  refine ⟨?_, ?_, ?_⟩
  · intro o ho
    rcases List.mem_filterMap.mp ho with ⟨i, hi, heq⟩
    by_cases hf : 5 ≤ i.frequency
    · rw [if_pos hf] at heq
      rcases Option.some.inj heq with rfl
      exact ⟨i, hi, hf, rfl, rfl, rfl⟩
    · rw [if_neg hf] at heq
      exact absurd heq (by simp)
  · intro i hi hf
    exact List.mem_filterMap.mpr ⟨i, hi, by rw [if_pos hf]⟩
  · intro o rest2 heq
    rw [heq]
    rfl

/-- Witness for the amended C9 at one qualifying industry. -/
theorem C9_witness :
    Opportunity.mk ("Target " ++ "Tech" ++ " - high AI readiness") 5 80
        (((5 : ℕ) : ℚ) * (52 / 100))
      ∈ market_opportunities [IndustryPattern.mk "Tech" 80 5] :=
  (C9_market_opportunities [IndustryPattern.mk "Tech" 80 5] []).2.1
    (IndustryPattern.mk "Tech" 80 5) (by simp) (by norm_num)

end Tool4

